import Mathlib

/-!
Verification of the `viral_shorts` media-assembly pipeline.

Each definition in this file is a shallow embedding of one Python function of
the repository, translated directly from `src/viral_shorts/...`.  Machine
floats are idealised as rationals; `round(x, 3)` is modelled as decimal
rounding to the nearest millisecond with ties to even (Python's rounding mode).
-/

namespace ViralShorts

/-! ## Definitions: shallow embedding of the source functions -/

/-- Round-half-to-even of a rational to the nearest integer (Python `round`). -/
def roundHalfEven (q : ℚ) : ℤ :=
  if q - ⌊q⌋ < 1/2 then ⌊q⌋
  else if 1/2 < q - ⌊q⌋ then ⌊q⌋ + 1
  else if 2 ∣ ⌊q⌋ then ⌊q⌋ else ⌊q⌋ + 1

/-- Python `round(q, 3)`: millisecond-precision rounding. -/
def round3 (q : ℚ) : ℚ := (roundHalfEven (q * 1000) : ℚ) / 1000

/-- One entry of the word-timestamp list produced by
`KyutaiTTS._generate_dummy_timestamps` (tts.py lines 106-111). -/
structure WordTiming where
  word : String
  start : ℚ
  «end» : ℚ
  duration : ℚ
  deriving Repr, DecidableEq

/-- Helper for `wordsOf`: scans the character list, accumulating the current
word in reverse in `acc` and emitting it at each whitespace run or at the end. -/
def wordsOfAux : List Char → List Char → List String
  | [], [] => []
  | [], acc => [⟨acc.reverse⟩]
  | c :: cs, acc =>
      if c.isWhitespace then
        if acc = [] then wordsOfAux cs []
        else ⟨acc.reverse⟩ :: wordsOfAux cs []
      else wordsOfAux cs (c :: acc)

/-- Python `text.split()`: split on whitespace runs, dropping empty pieces. -/
def wordsOf (text : String) : List String :=
  wordsOfAux text.data []

/-- The `for` loop of `_generate_dummy_timestamps` (tts.py lines 101-114):
`current` is the running `current_time`, advanced by `t` (= `time_per_word`)
per word; each word is shown for `t * 0.95` of its slot. -/
def genLoop (t : ℚ) : List String → ℚ → List WordTiming
  | [], _ => []
  | w :: ws, current =>
      { word := w
        start := round3 current
        «end» := round3 (current + t * 0.95)
        duration := round3 (t * 0.95) } :: genLoop t ws (current + t)

/-- Model of `KyutaiTTS._generate_dummy_timestamps` (tts.py lines 73-116).
`totalDuration = none` models the Python default `total_duration=None`,
in which case the duration is estimated at 2.5 words per second. -/
def generate_dummy_timestamps (text : String) (totalDuration : Option ℚ) :
    List WordTiming :=
  let words := wordsOf text
  if words = [] then []
  else
    let total := totalDuration.getD ((words.length : ℚ) / 2.5)
    let time_per_word := total / (words.length : ℚ)
    genLoop time_per_word words 0

/-- Property that `start` is monotonically non-decreasing across the sequence. -/
def startsNonDecreasing (ts : List WordTiming) : Prop :=
  ∀ i (h : i + 1 < ts.length),
    (ts.get ⟨i, Nat.lt_of_succ_lt h⟩).start ≤ (ts.get ⟨i + 1, h⟩).start

/-- Adjacent captions do not overlap: `end ≤ next.start`. -/
def noOverlap (ts : List WordTiming) : Prop :=
  ∀ i (h : i + 1 < ts.length),
    (ts.get ⟨i, Nat.lt_of_succ_lt h⟩).«end» ≤ (ts.get ⟨i + 1, h⟩).start

/-- The two synthesis backends tried by `KyutaiTTS._fallback_tts`. -/
inductive Backend
  | edge
  | gtts
  deriving DecidableEq, Repr

/-- The result dictionary returned by the TTS paths (tts.py 162-168, 216-222). -/
structure TTSResult where
  audio_path : String
  duration : ℚ
  word_timestamps : List WordTiming
  sample_rate : ℕ
  fallback : Bool
  deriving DecidableEq, Repr

/-- Model of `KyutaiTTS._edge_tts` (tts.py 177-222).  The external Edge TTS call and
audio decoding are abstracted as an oracle: `edgeDur = some d` means the
backend wrote the file and the decoded duration is `d` seconds; `none` means
it raised.  On success the dictionary has `'fallback': True` (line 221). -/
def edge_tts (text outputPath : String) (edgeDur : Option ℚ) : Option TTSResult :=
  edgeDur.map (fun d =>
    { audio_path := outputPath
      duration := d
      word_timestamps := generate_dummy_timestamps text (some d)
      sample_rate := 24000
      fallback := true })

/-- Model of `KyutaiTTS._fallback_tts` (tts.py 118-175): try Edge TTS first; on any
exception fall back to gTTS (itself abstracted by the oracle `gttsDur`),
which transcodes MP3→WAV, deletes the temp file and returns
`'fallback': True` (line 167).  The second component records which backends
were attempted, in order. -/
def fallback_tts (text outputPath : String) (edgeDur gttsDur : Option ℚ) :
    Option TTSResult × List Backend :=
  match edge_tts text outputPath edgeDur with
  | some r => (some r, [Backend.edge])
  | none =>
      match gttsDur with
      | some d =>
          (some { audio_path := outputPath
                  duration := d
                  word_timestamps := generate_dummy_timestamps text (some d)
                  sample_rate := 24000
                  fallback := true },
           [Backend.edge, Backend.gtts])
      | none => (none, [Backend.edge, Backend.gtts])

/-- The `for attempt in range(max_retries)` loop of
`AssetManager.download_video` (assets.py 172-221), with the network fetch
abstracted as an oracle `ok : attempt index → success?`.  Arguments are the
current `attempt` and the remaining number of attempts (`fuel`); the result is
`(returned path?, number of fetch calls, sleep durations in seconds)`.
A failed attempt sleeps `2 ^ attempt` seconds only when another attempt
remains (`attempt < max_retries - 1`, line 213), i.e. when `fuel > 1`. -/
def downloadGo (ok : ℕ → Bool) : ℕ → ℕ → Option String × ℕ × List ℕ
  | _, 0 => (none, 0, [])
  | attempt, fuel + 1 =>
      if ok attempt then (some "background.mp4", 1, [])
      else if fuel = 0 then (none, 1, [])
      else
        let r := downloadGo ok (attempt + 1) fuel
        (r.1, r.2.1 + 1, 2 ^ attempt :: r.2.2)

/-- Model of `AssetManager.download_video` (assets.py 151-221); `max_retries` defaults
to 3 in the source. -/
def download_video (ok : ℕ → Bool) (max_retries : ℕ) :
    Option String × ℕ × List ℕ :=
  downloadGo ok 0 max_retries

/-- Model of `VideoEditor.mix_audio` (editor.py 133-189).  The filesystem check and the
FFmpeg `amix` invocation are abstracted: `fileExists` says whether a path is
on disk, `ffmpegOk` is the mixing backend's exit status, `output_path` the
file it would produce.  The second component records whether the external
mixing backend was invoked. -/
def mix_audio (voice_path : String) (music_path : Option String)
    (output_path : String) (fileExists : String → Bool) (ffmpegOk : Bool) :
    Option String × Bool :=
  match music_path with
  | none => (some voice_path, false)
  | some m =>
      if fileExists m = false then (some voice_path, false)
      else if ffmpegOk then (some output_path, true)
      else (none, true)

/-- The fixed subtitle style configured in `create_animated_subtitles`
(editor.py 91-101), with the constants from config.py 62-70. -/
structure SSAStyle where
  fontname : String
  fontsize : ℕ
  primarycolor : ℕ × ℕ × ℕ
  outlinecolor : ℕ × ℕ × ℕ
  outline : ℕ
  shadow : ℕ
  bold : Bool
  alignment : ℕ
  marginv : ℕ
  deriving DecidableEq, Repr

/-- Values taken by the style: Arial 24, yellow on black outline 2, no
shadow, bold, bottom-center (alignment 2), 150 px bottom margin. -/
def subtitleStyle : SSAStyle :=
  { fontname := "Arial"
    fontsize := 24
    primarycolor := (0, 255, 255)
    outlinecolor := (0, 0, 0)
    outline := 2
    shadow := 0
    bold := true
    alignment := 2
    marginv := 150 }

/-- One subtitle display event (`pysubs2.SSAEvent`), times in milliseconds. -/
structure SSAEvent where
  start : ℤ
  «end» : ℤ
  text : String
  deriving DecidableEq, Repr

/-- The generated subtitle track: one style and the event list. -/
structure SSAFile where
  style : SSAStyle
  events : List SSAEvent
  deriving DecidableEq, Repr

/-- Python `int(x)`: truncation toward zero. -/
def intTrunc (q : ℚ) : ℤ := if 0 ≤ q then ⌊q⌋ else -⌊-q⌋

/-- Model of `VideoEditor.create_animated_subtitles` (editor.py 68-131): one event per
WordTiming, `start = int(start * 1000)`, `end = int(end * 1000)`, text
upper-cased. -/
def create_animated_subtitles (word_timestamps : List WordTiming) : SSAFile :=
  { style := subtitleStyle
    events := word_timestamps.map (fun w =>
      { start := intTrunc (w.start * 1000)
        «end» := intTrunc (w.«end» * 1000)
        text := w.word.toUpper }) }

/-- A concrete one-word timeline used to witness the renderer claims. -/
def sampleTiming : List WordTiming :=
  [{ word := "hi", start := 0, «end» := 1/2, duration := 1/2 }]

/-- The `status` string of a queue entry. -/
inductive UStatus
  | pending
  | uploaded
  | failed
  deriving DecidableEq, Repr

/-- One entry of the upload queue as built by `VideoScheduler.add_to_queue`
(scheduler.py 74-83); the optional fields are the keys added later by
`mark_uploaded` / `mark_failed`.  Times are POSIX seconds. -/
structure QueueEntry where
  id : String
  video_path : String
  title : String
  description : String
  tags : List String
  scheduled_time : ℤ
  status : UStatus
  added_at : ℤ
  youtube_id : Option String
  uploaded_at : Option ℤ
  error : Option String
  failed_at : Option ℤ
  deriving DecidableEq, Repr

/-- Model of `VideoScheduler.mark_uploaded` (scheduler.py 116-142): find the first
entry with matching id, unconditionally set its status/`youtube_id`/
`uploaded_at` and return `True`; return `False` when no entry matches. -/
def mark_uploaded (video_id youtube_id : String) (now : ℤ) :
    List QueueEntry → List QueueEntry × Bool
  | [] => ([], false)
  | e :: es =>
      if e.id = video_id then
        ({ e with status := UStatus.uploaded
                  youtube_id := some youtube_id
                  uploaded_at := some now } :: es, true)
      else
        let r := mark_uploaded video_id youtube_id now es
        (e :: r.1, r.2)

/-- Model of `VideoScheduler.mark_failed` (scheduler.py 144-170): same loop, setting
status to `'failed'` and recording the error, with no status guard. -/
def mark_failed (video_id error : String) (now : ℤ) :
    List QueueEntry → List QueueEntry × Bool
  | [] => ([], false)
  | e :: es =>
      if e.id = video_id then
        ({ e with status := UStatus.failed
                  error := some error
                  failed_at := some now } :: es, true)
      else
        let r := mark_failed video_id error now es
        (e :: r.1, r.2)

/-- First entry with the given id (the `for video in self.queue` scan). -/
def findVideo (video_id : String) : List QueueEntry → Option QueueEntry
  | [] => none
  | e :: es => if e.id = video_id then some e else findVideo video_id es

/-- Model of `VideoScheduler.clear_completed` (scheduler.py 228-259): drop entries
that are `'uploaded'` **and** whose `uploaded_at` (defaulting to `now` when
absent) is older than `now - older_than_days` days; return the kept queue
and the number removed. -/
def clear_completed (now older_than_days : ℤ) (q : List QueueEntry) :
    List QueueEntry × ℕ :=
  let cutoff := now - older_than_days * 86400
  let kept := q.filter (fun e =>
    !(decide (e.status = UStatus.uploaded) &&
      decide (e.uploaded_at.getD now < cutoff)))
  (kept, q.length - kept.length)

/-- A freshly enqueued pending entry with id `"1"`. -/
def pendingEntry : QueueEntry :=
  { id := "1"
    video_path := "v.mp4"
    title := "t"
    description := "d"
    tags := []
    scheduled_time := 0
    status := UStatus.pending
    added_at := 0
    youtube_id := none
    uploaded_at := none
    error := none
    failed_at := none }

/-- An old failed entry: `failed` at time 0, queried long after. -/
def oldFailedEntry : QueueEntry :=
  { id := "2"
    video_path := "w.mp4"
    title := "t2"
    description := "d2"
    tags := []
    scheduled_time := 0
    status := UStatus.failed
    added_at := 0
    youtube_id := none
    uploaded_at := none
    error := some "boom"
    failed_at := some 0 }

/-- One Pexels `video_files` entry: resolution variant with a download link. -/
structure PexelsFile where
  width : ℤ
  height : ℤ
  link : Option String
  deriving DecidableEq, Repr

/-- One Pexels search hit. -/
structure PexelsVideo where
  duration : ℤ
  video_files : List PexelsFile
  deriving DecidableEq, Repr

/-- One Pixabay quality tier (the per-quality dict, carrying the `url` key). -/
structure PixabayTier where
  url : Option String
  deriving DecidableEq, Repr

/-- The `videos` dict of a Pixabay hit, restricted to the quality keys the
code reads (`'medium'`, `'large'`, `'small'`); `none` models an absent key.
A present tier dict is modelled as truthy (the API tiers are never empty). -/
structure PixabayTiers where
  medium : Option PixabayTier
  large : Option PixabayTier
  small : Option PixabayTier
  deriving DecidableEq, Repr

/-- One Pixabay search hit. -/
structure PixabayVideo where
  duration : ℤ
  videos : PixabayTiers
  deriving DecidableEq, Repr

/-- The provider-specific `'data'` payload of a pooled candidate. -/
inductive CandData
  | pexels (v : PexelsVideo)
  | pixabay (v : PixabayVideo)
  deriving DecidableEq, Repr

/-- One pooled candidate dict built in `find_best_video`
(assets.py 252-260, 270-278). -/
structure Candidate where
  data : CandData
  keyword : String
  duration : ℤ
  deriving DecidableEq, Repr

/-- The `source` argument of `find_best_video`. -/
inductive SourceParam
  | pexels
  | pixabay
  | both
  deriving DecidableEq, Repr

/-- Test `source in ['pexels', 'both']` (assets.py 244). -/
def usesPexels : SourceParam → Bool
  | SourceParam.pexels => true
  | SourceParam.both => true
  | SourceParam.pixabay => false

/-- Test `source in ['pixabay', 'both']` (assets.py 262). -/
def usesPixabay : SourceParam → Bool
  | SourceParam.pixabay => true
  | SourceParam.both => true
  | SourceParam.pexels => false

/-- Truthiness of the `videos` dict (`v.get('videos')`, assets.py 268). -/
def pixabayTiersNonempty (t : PixabayTiers) : Bool :=
  t.medium.isSome || t.large.isSome || t.small.isSome

/-- The `all_videos` pool built by `AssetManager.find_best_video`
(assets.py 240-278): for each of the first 3 keywords, the Pexels hits first
and then the Pixabay hits, each filtered by
`duration >= min_duration and <has files>`.  The search calls are abstracted
as oracles returning `none` on failure. -/
def candidatePool (searchPexels : String → Option (List PexelsVideo))
    (searchPixabay : String → Option (List PixabayVideo))
    (hasPexelsKey hasPixabayKey : Bool) (src : SourceParam)
    (keywords : List String) (min_duration : ℤ) : List Candidate :=
  (keywords.take 3).flatMap (fun kw =>
    (if usesPexels src && hasPexelsKey then
      match searchPexels kw with
      | some vids =>
          (vids.filter (fun v =>
              decide (min_duration ≤ v.duration) && !v.video_files.isEmpty)).map
            (fun v =>
              { data := CandData.pexels v, keyword := kw, duration := v.duration })
      | none => []
    else [])
    ++
    (if usesPixabay src && hasPixabayKey then
      match searchPixabay kw with
      | some vids =>
          (vids.filter (fun v =>
              decide (min_duration ≤ v.duration) && pixabayTiersNonempty v.videos)).map
            (fun v =>
              { data := CandData.pixabay v, keyword := kw, duration := v.duration })
      | none => []
    else []))

/-- Stable descending insertion by reported duration. -/
def insertDesc (c : Candidate) : List Candidate → List Candidate
  | [] => [c]
  | d :: ds => if d.duration ≤ c.duration then c :: d :: ds else d :: insertDesc c ds

/-- Stable sort, descending by duration: extensionally equal to Python's
stable `all_videos.sort(key=duration, reverse=True)` (assets.py 285). -/
def sortByDurationDesc : List Candidate → List Candidate
  | [] => []
  | c :: cs => insertDesc c (sortByDurationDesc cs)

/-- Model of `AssetManager.find_best_video` (assets.py 223-292): pool, sort descending,
take the top 5, pick one at random — the uniform draw
`random.choice(top_videos)` is modelled by an arbitrary index `choiceIdx`
reduced modulo the list length. -/
def find_best_video (searchPexels : String → Option (List PexelsVideo))
    (searchPixabay : String → Option (List PixabayVideo))
    (hasPexelsKey hasPixabayKey : Bool) (src : SourceParam)
    (keywords : List String) (min_duration : ℤ) (choiceIdx : ℕ) :
    Option Candidate :=
  match candidatePool searchPexels searchPixabay hasPexelsKey hasPixabayKey
      src keywords min_duration with
  | [] => none
  | c :: rest =>
      let top_videos := (sortByDurationDesc (c :: rest)).take 5
      some (top_videos.getD (choiceIdx % top_videos.length) c)

/-- Python `max(files, key=lambda x: x.get('width', 0))` (assets.py 318):
left fold keeping the first maximum. -/
def pyMaxByWidth (f : PexelsFile) (fs : List PexelsFile) : PexelsFile :=
  fs.foldl (fun acc g => if acc.width < g.width then g else acc) f

/-- Model of `AssetManager.get_video_url` (assets.py 294-334): for Pexels, the
portrait variants (`width < height`) at maximal width; for Pixabay, the
first present tier among `'medium'`, `'large'`, `'small'`. -/
def get_video_url (c : Candidate) : Option String :=
  match c.data with
  | CandData.pexels v =>
      match v.video_files.filter (fun f => decide (f.width < f.height)) with
      | [] => none
      | f :: fs => (pyMaxByWidth f fs).link
  | CandData.pixabay v =>
      match v.videos.medium with
      | some tier => tier.url
      | none =>
          match v.videos.large with
          | some tier => tier.url
          | none =>
              match v.videos.small with
              | some tier => tier.url
              | none => none

/-- Stub Pexels resolution variant used in the concrete selection scenario. -/
def stubPexelsFile : PexelsFile :=
  { width := 540, height := 960, link := some "pexels-url" }

/-- Stub Pixabay tiers with only the medium tier present. -/
def stubTiers : PixabayTiers :=
  { medium := some { url := some "pixabay-url" }, large := none, small := none }

/-- Stub Pexels search returning hits of durations 5, 20, 15. -/
def stubSearchPexels : String → Option (List PexelsVideo) := fun _ =>
  some [{ duration := 5, video_files := [stubPexelsFile] },
        { duration := 20, video_files := [stubPexelsFile] },
        { duration := 15, video_files := [stubPexelsFile] }]

/-- Stub Pixabay search returning hits of durations 30, 25, 10. -/
def stubSearchPixabay : String → Option (List PixabayVideo) := fun _ =>
  some [{ duration := 30, videos := stubTiers },
        { duration := 25, videos := stubTiers },
        { duration := 10, videos := stubTiers }]

/-- The pooled candidate for a stub Pexels hit of duration `d`. -/
def stubPex (d : ℤ) : Candidate :=
  { data := CandData.pexels { duration := d, video_files := [stubPexelsFile] }
    keyword := "nature"
    duration := d }

/-- The pooled candidate for a stub Pixabay hit of duration `d`. -/
def stubPix (d : ℤ) : Candidate :=
  { data := CandData.pixabay { duration := d, videos := stubTiers }
    keyword := "nature"
    duration := d }

/-- A Pexels hit with one landscape and two portrait variants. -/
def witPexelsVideo : PexelsVideo :=
  { duration := 12
    video_files := [{ width := 1920, height := 1080, link := some "landscape" },
                    { width := 1080, height := 1920, link := some "hd-portrait" },
                    { width := 540, height := 960, link := some "sd-portrait" }] }

/-- A Pixabay hit with only a medium tier. -/
def witPixabayVideo : PixabayVideo := { duration := 15, videos := stubTiers }

/-- The concrete Pexels candidate used by the URL-extraction witness. -/
def witPexCand : Candidate :=
  { data := CandData.pexels witPexelsVideo, keyword := "k", duration := 12 }

/-- The concrete Pixabay candidate used by the URL-extraction witness. -/
def witPixCand : Candidate :=
  { data := CandData.pixabay witPixabayVideo, keyword := "k", duration := 15 }

/-! ## Theorems -/

theorem roundHalfEven_cases (q : ℚ) :
    roundHalfEven q = ⌊q⌋ ∨ roundHalfEven q = ⌊q⌋ + 1 := by
  unfold roundHalfEven
  split_ifs <;> tauto

theorem roundHalfEven_le (q : ℚ) : (roundHalfEven q : ℚ) ≤ q + 1/2 := by
  have hfl := Int.floor_le q
  have hlt := Int.sub_one_lt_floor q
  unfold roundHalfEven
  split_ifs with h1 h2 h3 <;> push_cast <;> linarith

theorem le_roundHalfEven (q : ℚ) : q - 1/2 ≤ (roundHalfEven q : ℚ) := by
  have hfl := Int.floor_le q
  have hlt := Int.lt_floor_add_one q
  unfold roundHalfEven
  split_ifs with h1 h2 h3 <;> push_cast <;> linarith

theorem roundHalfEven_mono {a b : ℚ} (hab : a ≤ b) :
    roundHalfEven a ≤ roundHalfEven b := by
  have hfl : ⌊a⌋ ≤ ⌊b⌋ := Int.floor_le_floor hab
  rcases hfl.lt_or_eq with hlt | heq
  · calc roundHalfEven a ≤ ⌊a⌋ + 1 := by
          rcases roundHalfEven_cases a with h | h <;> omega
      _ ≤ ⌊b⌋ := by omega
      _ ≤ roundHalfEven b := by
          rcases roundHalfEven_cases b with h | h <;> omega
  · have hcast : ((⌊a⌋ : ℚ)) = (⌊b⌋ : ℚ) := by exact_mod_cast heq
    have hfr : a - (⌊a⌋ : ℚ) ≤ b - (⌊b⌋ : ℚ) := by linarith
    unfold roundHalfEven
    split_ifs <;> first | omega | linarith

theorem round3_mono {a b : ℚ} (hab : a ≤ b) : round3 a ≤ round3 b := by
  unfold round3
  have h : roundHalfEven (a * 1000) ≤ roundHalfEven (b * 1000) :=
    roundHalfEven_mono (by linarith)
  have h' : (roundHalfEven (a * 1000) : ℚ) ≤ (roundHalfEven (b * 1000) : ℚ) := by
    exact_mod_cast h
  linarith

theorem round3_le (q : ℚ) : round3 q ≤ q + 1/2000 := by
  unfold round3
  have h := roundHalfEven_le (q * 1000)
  linarith

theorem genLoop_length (t : ℚ) (ws : List String) (c : ℚ) :
    (genLoop t ws c).length = ws.length := by
  induction ws generalizing c with
  | nil => rfl
  | cons w ws ih => simp [genLoop, ih]

theorem genLoop_map_word (t : ℚ) (ws : List String) (c : ℚ) :
    (genLoop t ws c).map (fun w => w.word) = ws := by
  induction ws generalizing c with
  | nil => rfl
  | cons w ws ih => simp [genLoop, ih]

theorem genLoop_duration (t : ℚ) (ws : List String) (c : ℚ) :
    ∀ w ∈ genLoop t ws c, w.duration = round3 (t * 0.95) := by
  induction ws generalizing c with
  | nil => simp [genLoop]
  | cons w ws ih =>
      intro x hx
      rcases List.mem_cons.mp hx with hx | hx
      · rw [hx]
      · exact ih _ x hx

theorem genLoop_get (t : ℚ) (ws : List String) (c : ℚ) (i : ℕ)
    (h : i < ws.length) :
    (genLoop t ws c).get ⟨i, by rw [genLoop_length]; exact h⟩ =
      { word := ws.get ⟨i, h⟩
        start := round3 (c + i * t)
        «end» := round3 (c + i * t + t * 0.95)
        duration := round3 (t * 0.95) } := by
  induction ws generalizing c i with
  | nil => exact absurd h (Nat.not_lt_zero i)
  | cons w ws ih =>
      cases i with
      | zero => simp [genLoop]
      | succ j =>
          have hj : j < ws.length := Nat.lt_of_succ_lt_succ h
          have := ih (c + t) j hj
          simp only [genLoop, List.get_cons_succ, List.length_cons] at this ⊢
          rw [this]
          push_cast
          ring_nf

/-- Unfolding of `_generate_dummy_timestamps` for non-empty texts. -/
theorem generate_dummy_timestamps_eq (text : String) (d : Option ℚ)
    (h : wordsOf text ≠ []) :
    generate_dummy_timestamps text d =
      genLoop ((d.getD (((wordsOf text).length : ℚ) / 2.5)) / ((wordsOf text).length : ℚ))
        (wordsOf text) 0 := by
  simp [generate_dummy_timestamps, h]

/-- C1 (amended): for non-empty text and `D > 0` the Timing Synthesizer emits
exactly `word_count` entries in token order, each displayed for
`round3 (0.95 × slot)` where `slot = D / word_count`; starts are
non-decreasing and adjacent entries never overlap.  The final conjunct — the
last word's `end` is at most `D` — holds under the amendment that each slot
is at least 10 ms (`word_count / 100 ≤ D`); for smaller slots millisecond
rounding can push the last `end` past `D`
(see `timing_synthesizer_last_end_cex`). -/
theorem timing_synthesizer_correct (text : String) (D : ℚ)
    (hw : wordsOf text ≠ []) (hD : 0 < D) :
    (generate_dummy_timestamps text (some D)).length = (wordsOf text).length ∧
    (generate_dummy_timestamps text (some D)).map (fun w => w.word) = wordsOf text ∧
    (∀ w ∈ generate_dummy_timestamps text (some D),
        w.duration = round3 (D / ((wordsOf text).length : ℚ) * 0.95)) ∧
    startsNonDecreasing (generate_dummy_timestamps text (some D)) ∧
    noOverlap (generate_dummy_timestamps text (some D)) ∧
    (((wordsOf text).length : ℚ) / 100 ≤ D →
      ∀ w, (generate_dummy_timestamps text (some D)).getLast? = some w →
        w.«end» ≤ D) := by
  have hN : 0 < (wordsOf text).length := List.length_pos.mpr hw
  have hNQ : (0 : ℚ) < ((wordsOf text).length : ℚ) := by exact_mod_cast hN
  have hts : generate_dummy_timestamps text (some D) =
      genLoop (D / ((wordsOf text).length : ℚ)) (wordsOf text) 0 := by
    rw [generate_dummy_timestamps_eq text _ hw]; rfl
  set N := (wordsOf text).length with hNdef
  set t := D / (N : ℚ) with ht
  have htpos : 0 < t := div_pos hD hNQ
  refine ⟨?_, ?_, ?_, ?_, ?_, ?_⟩
  · rw [hts, genLoop_length]
  · rw [hts, genLoop_map_word]
  · rw [hts]
    exact genLoop_duration t (wordsOf text) 0
  · rw [hts]
    intro i h
    have hlen : (genLoop t (wordsOf text) 0).length = N := genLoop_length _ _ _
    have h2 : i + 1 < N := by rw [hlen] at h; exact h
    rw [genLoop_get t (wordsOf text) 0 i (Nat.lt_of_succ_lt h2),
        genLoop_get t (wordsOf text) 0 (i + 1) h2]
    apply round3_mono
    push_cast
    nlinarith [htpos.le]
  · rw [hts]
    intro i h
    have hlen : (genLoop t (wordsOf text) 0).length = N := genLoop_length _ _ _
    have h2 : i + 1 < N := by rw [hlen] at h; exact h
    rw [genLoop_get t (wordsOf text) 0 i (Nat.lt_of_succ_lt h2),
        genLoop_get t (wordsOf text) 0 (i + 1) h2]
    apply round3_mono
    push_cast
    nlinarith [htpos.le]
  · intro hslot w hlast
    have h100 : (1 : ℚ)/100 ≤ t := by
      rw [ht, le_div_iff₀ hNQ]
      linarith
    have hNt : (N : ℚ) * t = D := by
      rw [ht]
      field_simp
    rw [hts] at hlast
    have hlen : (genLoop t (wordsOf text) 0).length = N := genLoop_length _ _ _
    have hN1 : N - 1 < N := by omega
    rw [List.getLast?_eq_getElem?, hlen] at hlast
    rw [List.getElem?_eq_getElem (by rw [hlen]; exact hN1)] at hlast
    have hget : (genLoop t (wordsOf text) 0)[N - 1] =
        (genLoop t (wordsOf text) 0).get ⟨N - 1, by rw [hlen]; exact hN1⟩ := rfl
    rw [hget, genLoop_get t (wordsOf text) 0 (N - 1) hN1] at hlast
    have hw' : w.«end» = round3 (0 + ((N : ℚ) - 1) * t + t * 0.95) := by
      have := congrArg (fun x => x.«end») (Option.some.inj hlast).symm
      simp only at this
      rw [this]
      congr 1
      rw [Nat.cast_sub (by omega : 1 ≤ N)]
      norm_num
    rw [hw']
    have hend := round3_le (0 + ((N : ℚ) - 1) * t + t * 0.95)
    nlinarith [hend, h100, hNt]

/-- Witness for `timing_synthesizer_correct` at text `"a b"`, `D = 1`. -/
theorem timing_synthesizer_correct_witness :
    (generate_dummy_timestamps "a b" (some 1)).length = (wordsOf "a b").length ∧
    (generate_dummy_timestamps "a b" (some 1)).map (fun w => w.word) = wordsOf "a b" ∧
    (∀ w ∈ generate_dummy_timestamps "a b" (some 1),
        w.duration = round3 (1 / ((wordsOf "a b").length : ℚ) * 0.95)) ∧
    startsNonDecreasing (generate_dummy_timestamps "a b" (some 1)) ∧
    noOverlap (generate_dummy_timestamps "a b" (some 1)) ∧
    (((wordsOf "a b").length : ℚ) / 100 ≤ 1 →
      ∀ w, (generate_dummy_timestamps "a b" (some 1)).getLast? = some w →
        w.«end» ≤ 1) :=
  timing_synthesizer_correct "a b" 1 (by decide) (by norm_num)

/-- C1 counterexample: at text `"a"` and `D = 0.0009 > 0` the single word's
`end` is `round(0.000855, 3) = 0.001 > D`, refuting the unamended claim that
the last word's `end` never exceeds `D`. -/
theorem timing_synthesizer_last_end_cex :
    (0 : ℚ) < 9/10000 ∧
    (generate_dummy_timestamps "a" (some (9/10000))).getLast?.map (fun w => w.«end»)
      = some (1/1000) ∧
    ¬ ((1 : ℚ)/1000 ≤ 9/10000) := by
  refine ⟨by norm_num, ?_, by norm_num⟩
  have hw : wordsOf "a" = ["a"] := rfl
  rw [generate_dummy_timestamps_eq _ _ (by rw [hw]; simp), hw]
  simp only [genLoop, Option.getD_some, List.getLast?_singleton, Option.map_some,
    List.length_singleton]
  norm_num [round3, roundHalfEven]

/-- C2 (amended): the Timing Synthesizer falls back to the estimated duration
`word_count / 2.5` only when **no** duration is supplied (`None`); a supplied
zero duration is used as-is (yielding all-zero timestamps, witnessed
concretely); and empty text yields the empty sequence for every duration. -/
theorem timing_duration_fallback :
    (∀ text d, wordsOf text = [] → generate_dummy_timestamps text d = []) ∧
    (∀ text, generate_dummy_timestamps text none =
      generate_dummy_timestamps text (some (((wordsOf text).length : ℚ) / 2.5))) ∧
    (generate_dummy_timestamps "a b" (some 0) =
      [{ word := "a", start := 0, «end» := 0, duration := 0 },
       { word := "b", start := 0, «end» := 0, duration := 0 }]) := by
  refine ⟨?_, ?_, ?_⟩
  · intro text d h
    simp [generate_dummy_timestamps, h]
  · intro text
    simp [generate_dummy_timestamps]
  · have hw : wordsOf "a b" = ["a", "b"] := rfl
    rw [generate_dummy_timestamps_eq _ _ (by rw [hw]; simp), hw]
    simp only [genLoop, Option.getD_some]
    norm_num [round3, roundHalfEven]

/-- Witness for `timing_duration_fallback`: empty text with a concrete
duration gives the empty sequence. -/
theorem timing_duration_fallback_witness :
    generate_dummy_timestamps "" (some 5) = [] :=
  timing_duration_fallback.1 "" (some 5) rfl

/-- C2 counterexample: a zero total duration is **not** rejected — the result
differs from the estimated-duration timeline the claim mandates. -/
theorem timing_zero_duration_cex :
    generate_dummy_timestamps "a b" (some 0) ≠ generate_dummy_timestamps "a b" none := by
  have hw : wordsOf "a b" = ["a", "b"] := rfl
  rw [generate_dummy_timestamps_eq _ _ (by rw [hw]; simp),
      generate_dummy_timestamps_eq _ _ (by rw [hw]; simp), hw]
  simp only [genLoop]
  norm_num [round3, roundHalfEven, WordTiming.mk.injEq]

/-- C3 (amended): the primary backend (Edge TTS) is always attempted first and
the secondary (gTTS) is attempted exactly when the primary fails; a result is
produced iff either backend succeeds; but **every** returned result reports
`used_fallback = true`, regardless of which backend produced the audio (the
original claim's `used_fallback ↔ secondary` is refuted by
`speech_adapter_usedfallback_cex`). -/
theorem speech_adapter_fallback_order (text p : String) (e g : Option ℚ) :
    (fallback_tts text p e g).2.head? = some Backend.edge ∧
    (Backend.gtts ∈ (fallback_tts text p e g).2 ↔ e = none) ∧
    (∀ r, (fallback_tts text p e g).1 = some r → r.fallback = true) ∧
    ((fallback_tts text p e g).1.isSome ↔ (e.isSome ∨ g.isSome)) := by
  cases e <;> cases g <;>
    simp [fallback_tts, edge_tts]

/-- Witness for `speech_adapter_fallback_order` at concrete oracles. -/
theorem speech_adapter_fallback_order_witness :
    (fallback_tts "hi" "out.wav" (some 1) (some 2)).2.head? = some Backend.edge ∧
    (Backend.gtts ∈ (fallback_tts "hi" "out.wav" (some 1) (some 2)).2 ↔
      (some (1 : ℚ)) = none) ∧
    (∀ r, (fallback_tts "hi" "out.wav" (some 1) (some 2)).1 = some r →
      r.fallback = true) ∧
    ((fallback_tts "hi" "out.wav" (some 1) (some 2)).1.isSome ↔
      ((some (1 : ℚ)).isSome ∨ (some (2 : ℚ)).isSome)) :=
  speech_adapter_fallback_order "hi" "out.wav" (some 1) (some 2)

/-- C3 counterexample: when the primary (Edge TTS) succeeds, the secondary is
never attempted, yet the result still reports `fallback = true` — never
`false` as the claim requires for primary-produced audio. -/
theorem speech_adapter_usedfallback_cex :
    (fallback_tts "hi" "out.wav" (some 1) none).2 = [Backend.edge] ∧
    (fallback_tts "hi" "out.wav" (some 1) none).1.map (fun r => r.fallback)
      = some true ∧
    (fallback_tts "hi" "out.wav" (some 1) none).1.map (fun r => r.fallback)
      ≠ some false := by
  refine ⟨rfl, rfl, ?_⟩
  simp [fallback_tts, edge_tts]

theorem pow_range_shift (attempt n : ℕ) :
    (List.range (n + 1)).map (fun i => 2 ^ (attempt + i)) =
      2 ^ attempt :: (List.range n).map (fun i => 2 ^ (attempt + 1 + i)) := by
  rw [List.range_succ_eq_map, List.map_cons, List.map_map]
  refine congrArg₂ _ (by rw [Nat.add_zero]) ?_
  apply List.map_congr_left
  intro i _
  simp only [Function.comp_apply]
  congr 1
  omega

theorem downloadGo_all_fail (ok : ℕ → Bool) :
    ∀ fuel attempt, (∀ i, i < fuel → ok (attempt + i) = false) →
      downloadGo ok attempt fuel =
        (none, fuel, (List.range (fuel - 1)).map (fun i => 2 ^ (attempt + i))) := by
  intro fuel
  induction fuel with
  | zero => intro attempt _; rfl
  | succ f ih =>
      intro attempt h
      have h0 : ok attempt = false := by simpa using h 0 (Nat.succ_pos f)
      cases f with
      | zero => simp [downloadGo, h0]
      | succ f' =>
          have hr := ih (attempt + 1) (fun i hi => by
            have := h (i + 1) (by omega)
            simpa [Nat.add_assoc, Nat.add_comm 1 i] using this)
          have hstep : downloadGo ok attempt (f' + 1 + 1) =
              if ok attempt then (some "background.mp4", 1, [])
              else if f' + 1 = 0 then (none, 1, [])
              else ((downloadGo ok (attempt + 1) (f' + 1)).1,
                    (downloadGo ok (attempt + 1) (f' + 1)).2.1 + 1,
                    2 ^ attempt :: (downloadGo ok (attempt + 1) (f' + 1)).2.2) := rfl
          rw [hstep, h0, hr]
          simp [pow_range_shift]

theorem downloadGo_succeed (ok : ℕ → Bool) :
    ∀ k fuel attempt, k < fuel → (∀ i, i < k → ok (attempt + i) = false) →
      ok (attempt + k) = true →
      downloadGo ok attempt fuel =
        (some "background.mp4", k + 1,
          (List.range k).map (fun i => 2 ^ (attempt + i))) := by
  intro k
  induction k with
  | zero =>
      intro fuel attempt hk _ hok
      obtain ⟨f, rfl⟩ : ∃ f, fuel = f + 1 := ⟨fuel - 1, by omega⟩
      have h0 : ok attempt = true := by simpa using hok
      simp [downloadGo, h0]
  | succ j ih =>
      intro fuel attempt hk hfail hok
      obtain ⟨f, rfl⟩ : ∃ f, fuel = f + 1 := ⟨fuel - 1, by omega⟩
      have h0 : ok attempt = false := by simpa using hfail 0 (Nat.succ_pos j)
      have hf : f ≠ 0 := by omega
      have hok' : ok (attempt + 1 + j) = true := by
        rw [show attempt + 1 + j = attempt + (j + 1) by omega]
        exact hok
      have hr := ih f (attempt + 1) (by omega)
        (fun i hi => by
          have := hfail (i + 1) (by omega)
          simpa [Nat.add_assoc, Nat.add_comm 1 i] using this)
        hok'
      have hstep : downloadGo ok attempt (f + 1) =
          if ok attempt then (some "background.mp4", 1, [])
          else if f = 0 then (none, 1, [])
          else ((downloadGo ok (attempt + 1) f).1,
                (downloadGo ok (attempt + 1) f).2.1 + 1,
                2 ^ attempt :: (downloadGo ok (attempt + 1) f).2.2) := rfl
      rw [hstep, h0, hr]
      simp [hf, pow_range_shift]

/-- C4 (amended): when every attempt fails, `download_video` performs exactly
`max_retries` fetches, sleeps `2^i` seconds after failed attempt `i` — i.e.
1s, 2s between the 3 attempts of the default configuration (a 4s sleep would
occur only from a fourth attempt onwards) — and returns failure; when the
first two attempts fail and the third succeeds, it returns the downloaded
path and the fetch ran exactly 3 times. -/
theorem download_retry_behaviour :
    (∀ ok : ℕ → Bool, (∀ i, i < 3 → ok i = false) →
      download_video ok 3 = (none, 3, [1, 2])) ∧
    (∀ (ok : ℕ → Bool) (n : ℕ), (∀ i, i < n → ok i = false) →
      download_video ok n =
        (none, n, (List.range (n - 1)).map (fun i => 2 ^ i))) ∧
    (∀ ok : ℕ → Bool, ok 0 = false → ok 1 = false → ok 2 = true →
      download_video ok 3 = (some "background.mp4", 3, [1, 2])) := by
  have hall : ∀ (ok : ℕ → Bool) (n : ℕ), (∀ i, i < n → ok i = false) →
      download_video ok n =
        (none, n, (List.range (n - 1)).map (fun i => 2 ^ i)) := by
    intro ok n h
    have := downloadGo_all_fail ok n 0 (fun i hi => by simpa using h i hi)
    simpa [download_video] using this
  refine ⟨?_, hall, ?_⟩
  · intro ok h
    rw [hall ok 3 h]
    rfl
  · intro ok h0 h1 h2
    have := downloadGo_succeed ok 2 3 0 (by omega)
      (fun i hi => by
        interval_cases i
        · simpa using h0
        · simpa using h1)
      (by simpa using h2)
    simpa [download_video] using this

/-- Witness for `download_retry_behaviour`: a stub failing all three times,
and a stub failing twice then succeeding. -/
theorem download_retry_behaviour_witness :
    download_video (fun _ => false) 3 = (none, 3, [1, 2]) ∧
    download_video (fun i => decide (i = 2)) 3 =
      (some "background.mp4", 3, [1, 2]) :=
  ⟨download_retry_behaviour.1 (fun _ => false) (fun _ _ => rfl),
   download_retry_behaviour.2.2 (fun i => decide (i = 2)) rfl rfl rfl⟩

/-- C4 counterexample: with the default `max_retries = 3` and an always-failing
fetch, the sleeps between attempts are 1s and 2s only — not the 1s, 2s, 4s
sequence the claim states (three attempts have just two inter-attempt gaps). -/
theorem download_sleeps_cex :
    download_video (fun _ => false) 3 = (none, 3, [1, 2]) ∧
    ([1, 2] : List ℕ) ≠ [1, 2, 4] := by
  refine ⟨?_, by decide⟩
  decide

/-- C7: with no music track, or a music path missing on disk, the mixer
returns the voice path itself as a success and never invokes the backend. -/
theorem mix_audio_no_music (voice : String) (music : Option String)
    (out : String) (fs : String → Bool) (ff : Bool)
    (h : music = none ∨ ∀ m, music = some m → fs m = false) :
    mix_audio voice music out fs ff = (some voice, false) := by
  cases music with
  | none => rfl
  | some m =>
      rcases h with h | h
      · exact absurd h (by simp)
      · simp [mix_audio, h m rfl]

/-- Witness for `mix_audio_no_music`: no music supplied. -/
theorem mix_audio_no_music_witness :
    mix_audio "voice.wav" none "mixed_audio.aac" (fun _ => true) true
      = (some "voice.wav", false) :=
  mix_audio_no_music "voice.wav" none "mixed_audio.aac" (fun _ => true) true
    (Or.inl rfl)

/-- C9: the Caption Renderer emits exactly one event per WordTiming, in
order, with upper-cased text and millisecond-converted times, and is
deterministic: equal inputs give byte-identical subtitle tracks. -/
theorem caption_renderer_events (ts : List WordTiming) :
    (create_animated_subtitles ts).events.length = ts.length ∧
    (∀ i (h : i < ts.length),
      (create_animated_subtitles ts).events[i]? =
        some { start := intTrunc ((ts.get ⟨i, h⟩).start * 1000)
               «end» := intTrunc ((ts.get ⟨i, h⟩).«end» * 1000)
               text := (ts.get ⟨i, h⟩).word.toUpper }) ∧
    (∀ ts2, ts = ts2 →
      create_animated_subtitles ts = create_animated_subtitles ts2) := by
  refine ⟨by simp [create_animated_subtitles], ?_, ?_⟩
  · intro i h
    simp [create_animated_subtitles, List.getElem?_map,
      List.getElem?_eq_getElem h]
  · intro ts2 h
    rw [h]

/-- Witness for `caption_renderer_events` at a concrete one-word timeline. -/
theorem caption_renderer_events_witness :
    (create_animated_subtitles sampleTiming).events.length = sampleTiming.length ∧
    (∀ i (h : i < sampleTiming.length),
      (create_animated_subtitles sampleTiming).events[i]? =
        some { start := intTrunc ((sampleTiming.get ⟨i, h⟩).start * 1000)
               «end» := intTrunc ((sampleTiming.get ⟨i, h⟩).«end» * 1000)
               text := (sampleTiming.get ⟨i, h⟩).word.toUpper }) ∧
    (∀ ts2, sampleTiming = ts2 →
      create_animated_subtitles sampleTiming = create_animated_subtitles ts2) :=
  caption_renderer_events sampleTiming

theorem findVideo_mark_uploaded (vid yid : String) (now : ℤ)
    (q : List QueueEntry) :
    findVideo vid (mark_uploaded vid yid now q).1 =
      (findVideo vid q).map (fun e =>
        { e with status := UStatus.uploaded
                 youtube_id := some yid
                 uploaded_at := some now }) := by
  induction q with
  | nil => rfl
  | cons e es ih =>
      by_cases h : e.id = vid
      · simp [mark_uploaded, findVideo, h]
      · simp [mark_uploaded, findVideo, h, ih]

theorem findVideo_mark_failed (vid err : String) (now : ℤ)
    (q : List QueueEntry) :
    findVideo vid (mark_failed vid err now q).1 =
      (findVideo vid q).map (fun e =>
        { e with status := UStatus.failed
                 error := some err
                 failed_at := some now }) := by
  induction q with
  | nil => rfl
  | cons e es ih =>
      by_cases h : e.id = vid
      · simp [mark_failed, findVideo, h]
      · simp [mark_failed, findVideo, h, ih]

theorem mark_uploaded_not_found (vid yid : String) (now : ℤ)
    (q : List QueueEntry) (h : findVideo vid q = none) :
    mark_uploaded vid yid now q = (q, false) := by
  induction q with
  | nil => rfl
  | cons e es ih =>
      by_cases he : e.id = vid
      · simp [findVideo, he] at h
      · simp [findVideo, he] at h
        simp [mark_uploaded, he, ih h]

theorem mark_failed_not_found (vid err : String) (now : ℤ)
    (q : List QueueEntry) (h : findVideo vid q = none) :
    mark_failed vid err now q = (q, false) := by
  induction q with
  | nil => rfl
  | cons e es ih =>
      by_cases he : e.id = vid
      · simp [findVideo, he] at h
      · simp [findVideo, he] at h
        simp [mark_failed, he, ih h]

/-- C8 (amended): `mark_uploaded` and `mark_failed` unconditionally overwrite
the first matching entry's status.  A second `mark_uploaded` leaves the status
`uploaded` (the status value transitions at most once to `uploaded`), and an
unknown id is reported not-found with the queue unchanged — but the statuses
are **not** terminal: `mark_failed` moves an `uploaded` entry to `failed`
(see `scheduler_terminal_cex`). -/
theorem scheduler_status_overwrite (q : List QueueEntry)
    (vid yid yid2 err : String) (t1 t2 t3 : ℤ) :
    ((findVideo vid q).isSome →
      ((findVideo vid (mark_uploaded vid yid t1 q).1).map (fun e => e.status)
          = some UStatus.uploaded ∧
       (findVideo vid
            (mark_uploaded vid yid2 t2 (mark_uploaded vid yid t1 q).1).1).map
            (fun e => e.status)
          = some UStatus.uploaded ∧
       (findVideo vid
            (mark_failed vid err t3 (mark_uploaded vid yid t1 q).1).1).map
            (fun e => e.status)
          = some UStatus.failed)) ∧
    (findVideo vid q = none →
      mark_uploaded vid yid t1 q = (q, false) ∧
      mark_failed vid err t3 q = (q, false)) := by
  constructor
  · intro h
    obtain ⟨e, he⟩ := Option.isSome_iff_exists.mp h
    refine ⟨?_, ?_, ?_⟩
    · rw [findVideo_mark_uploaded, he]
      rfl
    · rw [findVideo_mark_uploaded, findVideo_mark_uploaded, he]
      rfl
    · rw [findVideo_mark_failed, findVideo_mark_uploaded, he]
      rfl
  · intro h
    exact ⟨mark_uploaded_not_found vid yid t1 q h,
           mark_failed_not_found vid err t3 q h⟩

/-- Witness for `scheduler_status_overwrite` on a one-entry queue. -/
theorem scheduler_status_overwrite_witness :
    ((findVideo "1" [pendingEntry]).isSome →
      ((findVideo "1" (mark_uploaded "1" "yt" 1 [pendingEntry]).1).map
          (fun e => e.status) = some UStatus.uploaded ∧
       (findVideo "1"
            (mark_uploaded "1" "yt2" 2 (mark_uploaded "1" "yt" 1 [pendingEntry]).1).1).map
            (fun e => e.status) = some UStatus.uploaded ∧
       (findVideo "1"
            (mark_failed "1" "boom" 3 (mark_uploaded "1" "yt" 1 [pendingEntry]).1).1).map
            (fun e => e.status) = some UStatus.failed)) ∧
    (findVideo "1" [pendingEntry] = none →
      mark_uploaded "1" "yt" 1 [pendingEntry] = ([pendingEntry], false) ∧
      mark_failed "1" "boom" 3 [pendingEntry] = ([pendingEntry], false)) :=
  scheduler_status_overwrite [pendingEntry] "1" "yt" "yt2" "boom" 1 2 3

/-- C8 counterexample: after `mark_uploaded`, a `mark_failed` call for the
same id moves the entry from `uploaded` to `failed` — `uploaded` is not
terminal. -/
theorem scheduler_terminal_cex :
    (findVideo "1"
        (mark_failed "1" "boom" 2 (mark_uploaded "1" "yt" 1 [pendingEntry]).1).1).map
        (fun e => e.status) = some UStatus.failed ∧
    UStatus.failed ≠ UStatus.uploaded := by
  exact ⟨rfl, by decide⟩

/-- C10 (amended): the purge keeps a sublist of the queue; an entry is kept
iff it is **not** (`uploaded` with `uploaded_at` older than the cutoff); in
particular every `pending` **and every `failed`** entry is retained
regardless of age (the original claim that old `failed` entries are purged
is refuted by `purge_failed_cex`); the removed count is the length
difference. -/
theorem purge_removes_only_old_uploaded (now days : ℤ) (q : List QueueEntry) :
    (clear_completed now days q).1.Sublist q ∧
    (∀ e ∈ q, e ∈ (clear_completed now days q).1 ↔
      ¬(e.status = UStatus.uploaded ∧
        e.uploaded_at.getD now < now - days * 86400)) ∧
    (∀ e ∈ q, e.status ≠ UStatus.uploaded →
      e ∈ (clear_completed now days q).1) ∧
    (clear_completed now days q).2
      = q.length - (clear_completed now days q).1.length := by
  refine ⟨List.filter_sublist q, ?_, ?_, rfl⟩
  · intro e he
    simp [clear_completed, List.mem_filter, he]
    tauto
  · intro e he hs
    simp [clear_completed, List.mem_filter, he, hs]

/-- Witness for `purge_removes_only_old_uploaded` on a concrete queue. -/
theorem purge_removes_only_old_uploaded_witness :
    (clear_completed 1000000000 7 [oldFailedEntry]).1.Sublist [oldFailedEntry] ∧
    (∀ e ∈ [oldFailedEntry], e ∈ (clear_completed 1000000000 7 [oldFailedEntry]).1 ↔
      ¬(e.status = UStatus.uploaded ∧
        e.uploaded_at.getD 1000000000 < 1000000000 - 7 * 86400)) ∧
    (∀ e ∈ [oldFailedEntry], e.status ≠ UStatus.uploaded →
      e ∈ (clear_completed 1000000000 7 [oldFailedEntry]).1) ∧
    (clear_completed 1000000000 7 [oldFailedEntry]).2
      = ([oldFailedEntry] : List QueueEntry).length
          - (clear_completed 1000000000 7 [oldFailedEntry]).1.length :=
  purge_removes_only_old_uploaded 1000000000 7 [oldFailedEntry]

/-- C10 counterexample: a `failed` entry whose completion time (0) is far
older than the cutoff is **retained** by the purge, which removes nothing —
the claim that old terminal (`failed`) entries are removed is false. -/
theorem purge_failed_cex :
    clear_completed 1000000000 7 [oldFailedEntry] = ([oldFailedEntry], 0) ∧
    oldFailedEntry.status = UStatus.failed ∧
    oldFailedEntry.failed_at.getD 1000000000 < 1000000000 - 7 * 86400 := by
  refine ⟨rfl, rfl, by decide⟩

theorem getD_mem_of_lt {α : Type} (l : List α) (n : ℕ) (d : α)
    (h : n < l.length) : l.getD n d ∈ l := by
  rw [List.getD_eq_getElem?_getD, List.getElem?_eq_getElem h]
  exact List.getElem_mem h

theorem mem_insertDesc {x c : Candidate} {l : List Candidate} :
    x ∈ insertDesc c l ↔ x = c ∨ x ∈ l := by
  induction l with
  | nil => simp [insertDesc]
  | cons d ds ih =>
      unfold insertDesc
      split_ifs <;> simp [ih] <;> tauto

theorem mem_sortByDurationDesc {x : Candidate} {l : List Candidate} :
    x ∈ sortByDurationDesc l ↔ x ∈ l := by
  induction l with
  | nil => simp [sortByDurationDesc]
  | cons c cs ih => simp [sortByDurationDesc, mem_insertDesc, ih]

theorem length_insertDesc (c : Candidate) (l : List Candidate) :
    (insertDesc c l).length = l.length + 1 := by
  induction l with
  | nil => rfl
  | cons d ds ih =>
      unfold insertDesc
      split_ifs <;> simp [ih]

theorem length_sortByDurationDesc (l : List Candidate) :
    (sortByDurationDesc l).length = l.length := by
  induction l with
  | nil => rfl
  | cons c cs ih => simp [sortByDurationDesc, length_insertDesc, ih]

theorem candidatePool_min_duration
    (sp : String → Option (List PexelsVideo))
    (sb : String → Option (List PixabayVideo))
    (kp kb : Bool) (src : SourceParam) (kws : List String) (md : ℤ)
    (c : Candidate) (hc : c ∈ candidatePool sp sb kp kb src kws md) :
    md ≤ c.duration := by
  simp only [candidatePool, List.mem_flatMap, List.mem_append] at hc
  obtain ⟨kw, _, hc⟩ := hc
  rcases hc with hc | hc
  · split at hc
    · split at hc
      · simp only [List.mem_map, List.mem_filter, Bool.and_eq_true,
          decide_eq_true_eq] at hc
        obtain ⟨v, ⟨_, hd, _⟩, rfl⟩ := hc
        exact hd
      · simp at hc
    · simp at hc
  · split at hc
    · split at hc
      · simp only [List.mem_map, List.mem_filter, Bool.and_eq_true,
          decide_eq_true_eq] at hc
        obtain ⟨v, ⟨_, hd, _⟩, rfl⟩ := hc
        exact hd
      · simp at hc
    · simp at hc

/-- C5: selection queries only the first 3 keywords; every selected candidate
meets `min_duration` and lies in the top 5 of the duration-descending sort of
the pool; and in the concrete `[5,20,15,30,25,10]` / `min_duration = 10`
scenario the result always has duration in `[30,25,20,15,10]` and is never
the 5-second candidate, whatever the random draw. -/
theorem asset_selection_top5 :
    (∀ (sp : String → Option (List PexelsVideo))
       (sb : String → Option (List PixabayVideo))
       (kp kb : Bool) (src : SourceParam) (kws : List String) (md : ℤ) (i : ℕ),
      find_best_video sp sb kp kb src kws md i
        = find_best_video sp sb kp kb src (kws.take 3) md i) ∧
    (∀ (sp : String → Option (List PexelsVideo))
       (sb : String → Option (List PixabayVideo))
       (kp kb : Bool) (src : SourceParam) (kws : List String) (md : ℤ) (i : ℕ)
       (c : Candidate),
      find_best_video sp sb kp kb src kws md i = some c →
        md ≤ c.duration ∧
        c ∈ (sortByDurationDesc (candidatePool sp sb kp kb src kws md)).take 5) ∧
    (∀ i : ℕ, ∃ c,
      find_best_video stubSearchPexels stubSearchPixabay true true
          SourceParam.both ["nature"] 10 i = some c ∧
        c.duration ∈ ([30, 25, 20, 15, 10] : List ℤ) ∧ c.duration ≠ 5) := by
  refine ⟨?_, ?_, ?_⟩
  · intro sp sb kp kb src kws md i
    have hpool : candidatePool sp sb kp kb src kws md
        = candidatePool sp sb kp kb src (kws.take 3) md := by
      simp [candidatePool, List.take_take]
    unfold find_best_video
    rw [hpool]
  · intro sp sb kp kb src kws md i c h
    unfold find_best_video at h
    rcases hp : candidatePool sp sb kp kb src kws md with _ | ⟨c0, rest⟩
    · rw [hp] at h
      simp at h
    · rw [hp] at h
      simp only [Option.some.injEq] at h
      have hpos : 0 < ((sortByDurationDesc (c0 :: rest)).take 5).length := by
        rw [List.length_take, length_sortByDurationDesc]
        simp
      have hmem : c ∈ (sortByDurationDesc (c0 :: rest)).take 5 := by
        rw [← h]
        exact getD_mem_of_lt _ _ _ (Nat.mod_lt _ hpos)
      have hmem' : c ∈ candidatePool sp sb kp kb src kws md := by
        rw [hp]
        exact mem_sortByDurationDesc.mp (List.take_subset 5 _ hmem)
      exact ⟨candidatePool_min_duration sp sb kp kb src kws md c hmem', hmem⟩
  · intro i
    have hstep : find_best_video stubSearchPexels stubSearchPixabay true true
        SourceParam.both ["nature"] 10 i
        = some (([stubPix 30, stubPix 25, stubPex 20, stubPex 15,
            stubPix 10]).getD (i % 5) (stubPex 20)) := rfl
    have h5 : i % 5 < 5 := Nat.mod_lt _ (by norm_num)
    have hbound : ∀ k, k < 5 →
        (([stubPix 30, stubPix 25, stubPex 20, stubPex 15,
            stubPix 10]).getD k (stubPex 20)).duration
            ∈ ([30, 25, 20, 15, 10] : List ℤ) ∧
        (([stubPix 30, stubPix 25, stubPex 20, stubPex 15,
            stubPix 10]).getD k (stubPex 20)).duration ≠ 5 := by decide
    exact ⟨_, hstep, (hbound _ h5).1, (hbound _ h5).2⟩

/-- Witness for `asset_selection_top5`: the draw at index 0 selects the
30-second candidate, which meets the minimum duration and is in the top 5. -/
theorem asset_selection_top5_witness :
    (10 : ℤ) ≤ (stubPix 30).duration ∧
    stubPix 30 ∈ (sortByDurationDesc (candidatePool stubSearchPexels
        stubSearchPixabay true true SourceParam.both ["nature"] 10)).take 5 :=
  asset_selection_top5.2.1 stubSearchPexels stubSearchPixabay true true
    SourceParam.both ["nature"] 10 0 (stubPix 30) rfl

theorem pyMaxByWidth_mem (f : PexelsFile) (fs : List PexelsFile) :
    pyMaxByWidth f fs ∈ f :: fs := by
  induction fs generalizing f with
  | nil => simp [pyMaxByWidth]
  | cons g gs ih =>
      have hstep : pyMaxByWidth f (g :: gs)
          = pyMaxByWidth (if f.width < g.width then g else f) gs := rfl
      rw [hstep]
      rcases List.mem_cons.mp (ih (if f.width < g.width then g else f)) with h | h
      · rw [h]
        split_ifs <;> simp
      · simp [h]

theorem pyMaxByWidth_ge (f : PexelsFile) (fs : List PexelsFile) :
    ∀ g ∈ f :: fs, g.width ≤ (pyMaxByWidth f fs).width := by
  induction fs generalizing f with
  | nil =>
      intro g hg
      rcases List.mem_cons.mp hg with h | h
      · rw [h]; exact le_refl _
      · simp at h
  | cons g' gs ih =>
      intro g hg
      have hstep : pyMaxByWidth f (g' :: gs)
          = pyMaxByWidth (if f.width < g'.width then g' else f) gs := rfl
      rw [hstep]
      have hhead : (if f.width < g'.width then g' else f).width
          ≤ (pyMaxByWidth (if f.width < g'.width then g' else f) gs).width :=
        ih _ _ (List.mem_cons_self _ _)
      rcases List.mem_cons.mp hg with h | h
      · rw [h]
        split_ifs at hhead ⊢ with hw
        · omega
        · exact hhead
      · rcases List.mem_cons.mp h with h' | h'
        · rw [h']
          split_ifs at hhead ⊢ with hw
          · exact hhead
          · omega
        · exact ih _ g (List.mem_cons_of_mem _ h')

/-- C6: for Pexels candidates, `get_video_url` returns the link of a portrait
variant (`width < height`) of maximal width, and no URL when no portrait
variant exists; for Pixabay candidates it returns the medium tier's URL when
that tier is present, else the large tier's, else the small tier's. -/
theorem url_extraction_per_provider (v : PexelsVideo) (w : PixabayVideo)
    (kw : String) (dpe dpi : ℤ) :
    ((v.video_files.filter (fun f => decide (f.width < f.height)) = [] →
        get_video_url { data := CandData.pexels v, keyword := kw, duration := dpe }
          = none) ∧
     (∀ f fs, v.video_files.filter (fun f => decide (f.width < f.height)) = f :: fs →
        ∃ best, best ∈ v.video_files.filter (fun f => decide (f.width < f.height)) ∧
          get_video_url { data := CandData.pexels v, keyword := kw, duration := dpe }
            = best.link ∧
          ∀ g ∈ v.video_files.filter (fun f => decide (f.width < f.height)),
            g.width ≤ best.width)) ∧
    ((∀ t, w.videos.medium = some t →
        get_video_url { data := CandData.pixabay w, keyword := kw, duration := dpi }
          = t.url) ∧
     (∀ t, w.videos.medium = none → w.videos.large = some t →
        get_video_url { data := CandData.pixabay w, keyword := kw, duration := dpi }
          = t.url) ∧
     (∀ t, w.videos.medium = none → w.videos.large = none → w.videos.small = some t →
        get_video_url { data := CandData.pixabay w, keyword := kw, duration := dpi }
          = t.url) ∧
     (w.videos.medium = none → w.videos.large = none → w.videos.small = none →
        get_video_url { data := CandData.pixabay w, keyword := kw, duration := dpi }
          = none)) := by
  refine ⟨⟨?_, ?_⟩, ?_, ?_, ?_, ?_⟩
  · intro h
    simp [get_video_url, h]
  · intro f fs h
    refine ⟨pyMaxByWidth f fs, ?_, ?_, ?_⟩
    · rw [h]
      exact pyMaxByWidth_mem f fs
    · simp [get_video_url, h]
    · rw [h]
      exact pyMaxByWidth_ge f fs
  · intro t hm
    simp [get_video_url, hm]
  · intro t hm hl
    simp [get_video_url, hm, hl]
  · intro t hm hl hs
    simp [get_video_url, hm, hl, hs]
  · intro hm hl hs
    simp [get_video_url, hm, hl, hs]

/-- Witness for `url_extraction_per_provider` at concrete provider payloads. -/
theorem url_extraction_per_provider_witness :
    ((witPexelsVideo.video_files.filter (fun f => decide (f.width < f.height)) = [] →
        get_video_url witPexCand = none) ∧
     (∀ f fs, witPexelsVideo.video_files.filter (fun f => decide (f.width < f.height))
          = f :: fs →
        ∃ best, best ∈ witPexelsVideo.video_files.filter
            (fun f => decide (f.width < f.height)) ∧
          get_video_url witPexCand = best.link ∧
          ∀ g ∈ witPexelsVideo.video_files.filter (fun f => decide (f.width < f.height)),
            g.width ≤ best.width)) ∧
    ((∀ t, witPixabayVideo.videos.medium = some t →
        get_video_url witPixCand = t.url) ∧
     (∀ t, witPixabayVideo.videos.medium = none → witPixabayVideo.videos.large = some t →
        get_video_url witPixCand = t.url) ∧
     (∀ t, witPixabayVideo.videos.medium = none → witPixabayVideo.videos.large = none →
        witPixabayVideo.videos.small = some t →
        get_video_url witPixCand = t.url) ∧
     (witPixabayVideo.videos.medium = none → witPixabayVideo.videos.large = none →
        witPixabayVideo.videos.small = none →
        get_video_url witPixCand = none)) :=
  url_extraction_per_provider witPexelsVideo witPixabayVideo "k" 12 15

end ViralShorts
